import Mathlib

/-!
Verification of the ChatWithAgent knowledge-retrieval engine against its
specification.  The repository ships the database schema
(`scripts/init.sql`) and the web front end (Vue/TypeScript); the
retrieval engine itself (segmenter, vector-store router,
retrieval/reranking engine, ingestion coordinator) is described by the
specification only, so those operations are modelled here directly from
the specification's words.  Front-end behaviour (the `request.ts`
response interceptors and the knowledge-base document-upload handler in
the conversation-management view) is embedded from the TypeScript
source.

Similarity scores are modelled over `ℚ`: every property below is purely
order-theoretic (sorting, thresholding, truncation) and does not depend
on rounding behaviour of machine floats.
-/

namespace ChatAgent

/-! ### Vector store: records and router operations -/

/-- A `VectorRecord`: the embedding of exactly one chunk in one backend
collection, indexed by the chunk's id.  `ordinal` is the owning chunk's
ordinal index inside its document, used as the deterministic tie-break
in search. -/
structure VectorRecord where
  chunkId : Nat
  ordinal : Nat
  vector : List ℚ
  deriving DecidableEq, Repr

/-- Modelled from the spec: one step of the Router's
`upsert(collection, [VectorRecord])` (the engine implementing the
router is not among the shipped sources).  Upsert is keyed by chunk id:
re-upserting an existing chunk id replaces its vector and metadata,
otherwise the record is appended. -/
def upsertOne (store : List VectorRecord) (r : VectorRecord) :
    List VectorRecord :=
  if store.any (fun s => s.chunkId == r.chunkId) then
    store.map (fun s => if s.chunkId == r.chunkId then r else s)
  else
    store ++ [r]

/-- Modelled from the spec: `upsert(collection, [VectorRecord])`,
applied record by record. -/
def upsert (store : List VectorRecord) (rs : List VectorRecord) :
    List VectorRecord :=
  rs.foldl upsertOne store

/-- Modelled from the spec: `delete(collection, [chunk_id])` — removes
the vectors of the listed chunk ids.  Deleting a non-existent id is a
no-op, not an error: the operation is total and leaves unrelated
records untouched. -/
def delete (store : List VectorRecord) (ids : List Nat) :
    List VectorRecord :=
  store.filter (fun s => !(ids.contains s.chunkId))

/-- A store is well formed when no two records share a chunk id. -/
def WellFormedStore (store : List VectorRecord) : Prop :=
  (store.map VectorRecord.chunkId).Nodup

/-- Replacing the record of an existing chunk id keeps exactly one
record for that id, namely the new one. -/
theorem filter_map_replace (r : VectorRecord) :
    ∀ store : List VectorRecord,
      WellFormedStore store →
      store.any (fun s => s.chunkId == r.chunkId) = true →
      (store.map (fun s => if s.chunkId == r.chunkId then r else s)).filter
          (fun s => s.chunkId == r.chunkId) = [r]
  | [], _, hany => by simp at hany
  | s :: t, hwf, hany => by
    have hwf' : s.chunkId ∉ t.map VectorRecord.chunkId ∧ WellFormedStore t := by
      simpa [WellFormedStore, List.nodup_cons] using hwf
    by_cases hs : s.chunkId = r.chunkId
    · simp only [List.map_cons, List.filter_cons, hs, beq_self_eq_true, if_true,
        List.cons.injEq, true_and]
      refine List.filter_eq_nil_iff.mpr ?_
      intro a ha
      rcases List.mem_map.mp ha with ⟨x, hx, hfx⟩
      have hxid : x.chunkId ≠ r.chunkId := by
        intro hcontra
        exact hwf'.1 (hs ▸ hcontra ▸ List.mem_map_of_mem VectorRecord.chunkId hx)
      subst hfx
      simp [hxid]
    · have htane : t.any (fun x => x.chunkId == r.chunkId) = true := by
        rcases List.any_eq_true.mp hany with ⟨x, hx, hpx⟩
        rcases List.mem_cons.mp hx with hx1 | hx2
        · subst hx1
          exact absurd (by simpa using hpx) hs
        · exact List.any_eq_true.mpr ⟨x, hx2, hpx⟩
      have ih := filter_map_replace r t hwf'.2 htane
      simpa [hs] using ih

/-- After an upsert into a well-formed store, the records carrying the
upserted chunk id are exactly the single new record. -/
theorem upsertOne_filter_eq (store : List VectorRecord) (r : VectorRecord)
    (h : WellFormedStore store) :
    (upsertOne store r).filter (fun s => s.chunkId == r.chunkId) = [r] := by
  unfold upsertOne
  by_cases hany : store.any (fun s => s.chunkId == r.chunkId) = true
  · simpa [hany] using filter_map_replace r store h hany
  · have hnone : ∀ s ∈ store, ¬(s.chunkId == r.chunkId) = true := by
      intro s hs hcontra
      exact hany (List.any_eq_true.mpr ⟨s, hs, hcontra⟩)
    have hfil : store.filter (fun s => s.chunkId == r.chunkId) = [] :=
      List.filter_eq_nil_iff.mpr hnone
    simp [hany, List.filter_append, hfil]

/-- Upsert preserves well-formedness of the store. -/
theorem upsertOne_wellFormed (store : List VectorRecord) (r : VectorRecord)
    (h : WellFormedStore store) : WellFormedStore (upsertOne store r) := by
  unfold WellFormedStore upsertOne
  by_cases hany : store.any (fun s => s.chunkId == r.chunkId) = true
  · rw [if_pos hany, List.map_map]
    have hmap : store.map
        (VectorRecord.chunkId ∘ fun s => if s.chunkId == r.chunkId then r else s) =
        store.map VectorRecord.chunkId := by
      refine List.map_congr_left ?_
      intro x _
      by_cases hx : x.chunkId = r.chunkId
      · simp [hx, Function.comp]
      · simp [hx, Function.comp]
    rw [hmap]
    exact h
  · have hnotin : r.chunkId ∉ store.map VectorRecord.chunkId := by
      intro hcontra
      rcases List.mem_map.mp hcontra with ⟨x, hx, hxid⟩
      exact hany (List.any_eq_true.mpr ⟨x, hx, by simp [hxid]⟩)
    rw [if_neg hany, List.map_append]
    exact List.nodup_append.mpr
      ⟨h, List.nodup_singleton _, by
        intro a ha hb
        have : a = r.chunkId := by simpa using hb
        exact hnotin (this ▸ ha)⟩

/-- C6: upserting the same chunk id twice (with possibly different
vectors) into a well-formed store leaves exactly one `VectorRecord` for
that chunk, carrying the vector of the latest upsert; deleting a chunk
id that is not present in the collection is a no-op that succeeds. -/
theorem upsert_replaces_and_delete_noop
    (store : List VectorRecord) (r1 r2 : VectorRecord)
    (_hid : r1.chunkId = r2.chunkId)
    (hwf : WellFormedStore store)
    (c : Nat) (hc : c ∉ store.map VectorRecord.chunkId) :
    (upsert store [r1, r2]).filter (fun s => s.chunkId == r2.chunkId) = [r2] ∧
    delete store [c] = store := by
  constructor
  · have h1 : WellFormedStore (upsertOne store r1) :=
      upsertOne_wellFormed store r1 hwf
    have h2 := upsertOne_filter_eq (upsertOne store r1) r2 h1
    simpa [upsert] using h2
  · unfold delete
    refine List.filter_eq_self.mpr ?_
    intro s hs
    have hne : s.chunkId ≠ c := by
      intro hcontra
      exact hc (hcontra ▸ List.mem_map_of_mem VectorRecord.chunkId hs)
    simp [hne]

/-- Concrete check of `upsert_replaces_and_delete_noop`: upserting chunk
id 2 twice into a one-record store keeps a single record with the later
vector, and deleting the absent id 5 changes nothing. -/
theorem upsert_replaces_and_delete_noop_witness :
    (upsert [⟨1, 0, [1]⟩] [⟨2, 1, [2]⟩, ⟨2, 1, [3]⟩]).filter
        (fun s => s.chunkId == (2 : Nat)) = [⟨2, 1, [3]⟩] ∧
    delete [⟨1, 0, [1]⟩] [5] = [⟨1, 0, [1]⟩] :=
  upsert_replaces_and_delete_noop [⟨1, 0, [1]⟩] ⟨2, 1, [2]⟩ ⟨2, 1, [3]⟩ rfl
    (by unfold WellFormedStore; decide) 5 (by decide)

/-! ### Retrieval and reranking -/

/-- A transient retrieval result: chunk reference, the chunk's ordinal
index, and its (fused) score. -/
structure RetrievalResult where
  chunkId : Nat
  ordinal : Nat
  score : ℚ
  deriving DecidableEq, Repr

/-- The ranking order on results: descending score, ties broken by
ascending chunk ordinal index. -/
def resultLE (a b : RetrievalResult) : Prop :=
  b.score < a.score ∨ (a.score = b.score ∧ a.ordinal ≤ b.ordinal)

instance decResultLE : DecidableRel resultLE := fun a b =>
  inferInstanceAs
    (Decidable (b.score < a.score ∨ (a.score = b.score ∧ a.ordinal ≤ b.ordinal)))

instance totalResultLE : IsTotal RetrievalResult resultLE where
  total a b := by
    unfold resultLE
    rcases lt_trichotomy a.score b.score with h | h | h
    · exact Or.inr (Or.inl h)
    · rcases Nat.le_total a.ordinal b.ordinal with ho | ho
      · exact Or.inl (Or.inr ⟨h, ho⟩)
      · exact Or.inr (Or.inr ⟨h.symm, ho⟩)
    · exact Or.inl (Or.inl h)

instance transResultLE : IsTrans RetrievalResult resultLE where
  trans a b c hab hbc := by
    unfold resultLE at hab hbc ⊢
    rcases hab with hab | ⟨hab1, hab2⟩
    · rcases hbc with hbc | ⟨hbc1, hbc2⟩
      · exact Or.inl (hbc.trans hab)
      · exact Or.inl (hbc1 ▸ hab)
    · rcases hbc with hbc | ⟨hbc1, hbc2⟩
      · exact Or.inl (hab1.symm ▸ hbc)
      · exact Or.inr ⟨hab1.trans hbc1, hab2.trans hbc2⟩

/-- Dot-product similarity of two (L2-normalizable) vectors. -/
def dot (u v : List ℚ) : ℚ :=
  (List.zipWith (· * ·) u v).sum

/-- Modelled from the spec: the Router's
`search(collection, query_vector, top_k, filters)` (the router
implementation is not among the shipped sources) — scores the records
passing the filter against the query vector, orders them by descending
similarity with ties broken by earliest chunk ordinal, and returns at
most `top_k` of them. -/
def search (records : List VectorRecord) (queryVector : List ℚ)
    (topK : Nat) (filt : VectorRecord → Bool) : List RetrievalResult :=
  (List.insertionSort resultLE ((records.filter filt).map fun r =>
    (⟨r.chunkId, r.ordinal, dot queryVector r.vector⟩ : RetrievalResult))).take
    topK

/-- A named backend collection of vector records. -/
structure Collection where
  cname : String
  records : List VectorRecord
  deriving DecidableEq, Repr

/-- Fused score of a record:
`w_semantic * semantic_score + w_lexical * lexical_score`. -/
def fusedScore (wSem wLex : ℚ) (lex : Nat → ℚ) (qv : List ℚ)
    (r : VectorRecord) : ℚ :=
  wSem * dot qv r.vector + wLex * lex r.chunkId

/-- Modelled from the spec:
`retrieve(query_text, knowledge_base_id, top_k, score_threshold, filters)`
of the Retrieval & Reranking Engine (not among the shipped sources).
The query text is embedded (`embedder`; `none` models an embedding
failure, surfaced as a hard error), every record of every collection of
the knowledge base receives its fused semantic+lexical score, results
below `score_threshold` are dropped, the rest are sorted by descending
fused score with ties broken by ascending chunk ordinal, and the first
`top_k` are returned. -/
def retrieve (embedder : String → Option (List ℚ)) (lex : Nat → ℚ)
    (wSem wLex : ℚ) (collections : List Collection) (queryText : String)
    (topK : Nat) (threshold : ℚ) : Except String (List RetrievalResult) :=
  match embedder queryText with
  | none => .error "query embedding failed"
  | some qv =>
    let candidates := (collections.map fun col => col.records.map fun r =>
      (⟨r.chunkId, r.ordinal, fusedScore wSem wLex lex qv r⟩ :
        RetrievalResult)).flatten
    .ok ((List.insertionSort resultLE
      (candidates.filter fun res => decide (threshold ≤ res.score))).take topK)

/-- C1: `search` and `retrieve` return at most `top_k` results, sorted
descending by (fused) score, results with equal score being ranked by
ascending chunk ordinal index (the order `resultLE`). -/
theorem search_retrieve_topk_sorted
    (records : List VectorRecord) (qv : List ℚ) (topK : Nat)
    (filt : VectorRecord → Bool)
    (embedder : String → Option (List ℚ)) (lex : Nat → ℚ) (wSem wLex : ℚ)
    (collections : List Collection) (queryText : String) (threshold : ℚ)
    (res : List RetrievalResult)
    (hres : retrieve embedder lex wSem wLex collections queryText topK
      threshold = .ok res) :
    (search records qv topK filt).length ≤ topK ∧
    (search records qv topK filt).Sorted resultLE ∧
    res.length ≤ topK ∧ res.Sorted resultLE := by
  refine ⟨?_, ?_, ?_, ?_⟩
  · unfold search
    rw [List.length_take]
    exact min_le_left _ _
  · unfold search
    exact List.Pairwise.sublist (List.take_sublist _ _)
      (List.sorted_insertionSort resultLE _)
  · cases hemb : embedder queryText with
    | none => simp [retrieve, hemb] at hres
    | some v =>
      simp only [retrieve, hemb] at hres
      injection hres with h
      subst h
      rw [List.length_take]
      exact min_le_left _ _
  · cases hemb : embedder queryText with
    | none => simp [retrieve, hemb] at hres
    | some v =>
      simp only [retrieve, hemb] at hres
      injection hres with h
      subst h
      exact List.Pairwise.sublist (List.take_sublist _ _)
        (List.sorted_insertionSort resultLE _)

/-- Concrete check of `search_retrieve_topk_sorted` on a one-record
store and a one-collection knowledge base. -/
theorem search_retrieve_topk_sorted_witness :
    (search [⟨1, 0, [1]⟩] [1] 1 (fun _ => true)).length ≤ 1 ∧
    (search [⟨1, 0, [1]⟩] [1] 1 (fun _ => true)).Sorted resultLE ∧
    ([(⟨1, 0, 1⟩ : RetrievalResult)]).length ≤ 1 ∧
    ([(⟨1, 0, 1⟩ : RetrievalResult)]).Sorted resultLE :=
  search_retrieve_topk_sorted [⟨1, 0, [1]⟩] [1] 1 (fun _ => true)
    (fun _ => some [1]) (fun _ => 0) 1 0 [⟨"c", [⟨1, 0, [1]⟩]⟩] "q" 0
    [⟨1, 0, 1⟩] (by simp [retrieve, fusedScore, dot, List.insertionSort])

/-- C4: every result returned by `retrieve` has fused score at least
`score_threshold`; concretely, a query with threshold `9/10` against a
knowledge base whose best (and only) match scores `17/20` returns the
empty list. -/
theorem retrieve_threshold
    (embedder : String → Option (List ℚ)) (lex : Nat → ℚ) (wSem wLex : ℚ)
    (collections : List Collection) (queryText : String) (topK : Nat)
    (threshold : ℚ) (res : List RetrievalResult)
    (hres : retrieve embedder lex wSem wLex collections queryText topK
      threshold = .ok res) :
    (∀ r ∈ res, threshold ≤ r.score) ∧
    retrieve (fun _ => some [1]) (fun _ => 0) 1 0 [⟨"kb", [⟨1, 0, [17/20]⟩]⟩]
      "q" 5 (9/10) = .ok [] := by
  constructor
  · intro r hr
    cases hemb : embedder queryText with
    | none => simp [retrieve, hemb] at hres
    | some v =>
      simp only [retrieve, hemb] at hres
      injection hres with h
      subst h
      have h2 := ((List.perm_insertionSort resultLE _).mem_iff).mp
        (List.mem_of_mem_take hr)
      exact of_decide_eq_true (List.mem_filter.mp h2).2
  · simp [retrieve, fusedScore, dot]
    norm_num

/-- Concrete check of `retrieve_threshold`: with threshold 0 every
returned score is at least 0, and the 0.9-threshold scenario returns
no results. -/
theorem retrieve_threshold_witness :
    (∀ r ∈ [(⟨1, 0, 1⟩ : RetrievalResult)], (0 : ℚ) ≤ r.score) ∧
    retrieve (fun _ => some [1]) (fun _ => 0) 1 0 [⟨"kb", [⟨1, 0, [17/20]⟩]⟩]
      "q" 5 (9/10) = .ok [] :=
  retrieve_threshold (fun _ => some [1]) (fun _ => 0) 1 0
    [⟨"c", [⟨1, 0, [1]⟩]⟩] "q" 1 0 [⟨1, 0, 1⟩]
    (by simp [retrieve, fusedScore, dot, List.insertionSort])

/-- C5: retrieving from a knowledge base with no documents (hence no
records in any collection) returns the empty result list and not an
error, while a query-embedding failure is surfaced as a hard
`Except.error`, never as an empty success. -/
theorem retrieve_empty_kb_and_embed_failure
    (embedder : String → Option (List ℚ)) (lex : Nat → ℚ) (wSem wLex : ℚ)
    (collections : List Collection) (queryText : String) (topK : Nat)
    (threshold : ℚ) :
    ((∀ col ∈ collections, col.records = []) →
      ∀ qv, embedder queryText = some qv →
        retrieve embedder lex wSem wLex collections queryText topK
          threshold = .ok []) ∧
    (embedder queryText = none →
      retrieve embedder lex wSem wLex collections queryText topK threshold =
        .error "query embedding failed") := by
  constructor
  · intro hempty qv hq
    have hcand : (collections.map fun col => col.records.map fun r =>
        (⟨r.chunkId, r.ordinal, fusedScore wSem wLex lex qv r⟩ :
          RetrievalResult)).flatten = [] := by
      rw [List.flatten_eq_nil_iff]
      intro l hl
      rcases List.mem_map.mp hl with ⟨col, hcol, rfl⟩
      rw [hempty col hcol]
      rfl
    simp [retrieve, hq, hcand, List.insertionSort]
  · intro h
    simp [retrieve, h]

/-- Concrete check of `retrieve_empty_kb_and_embed_failure` on a
knowledge base with one empty collection. -/
theorem retrieve_empty_kb_and_embed_failure_witness :
    retrieve (fun _ => some [1]) (fun _ => 0) 1 0 [⟨"kb", []⟩] "q" 5 0 =
      .ok [] ∧
    retrieve (fun _ => none) (fun _ => 0) 1 0 [⟨"kb", []⟩] "q" 5 0 =
      .error "query embedding failed" :=
  ⟨(retrieve_empty_kb_and_embed_failure (fun _ => some [1]) (fun _ => 0) 1 0
      [⟨"kb", []⟩] "q" 5 0).1 (by decide) [1] rfl,
   (retrieve_empty_kb_and_embed_failure (fun _ => none) (fun _ => 0) 1 0
      [⟨"kb", []⟩] "q" 5 0).2 rfl⟩

/-! ### Cascade delete of a document -/

/-- A chunk record: its id, its owning document, and its ordinal index
within that document. -/
structure DocChunk where
  id : Nat
  documentId : Nat
  ordinal : Nat
  deriving DecidableEq, Repr

/-- The engine state relevant to cascading deletes: the documents of a
knowledge base, their chunks, and the vector records held by every
backend collection. -/
structure EngineState where
  documents : List Nat
  chunks : List DocChunk
  collections : List Collection
  deriving DecidableEq, Repr

/-- The chunk ids owned by a document. -/
def documentChunkIds (st : EngineState) (docId : Nat) : List Nat :=
  (st.chunks.filter (fun c => c.documentId == docId)).map DocChunk.id

/-- Modelled from the spec: deleting a `Document` cascades — every
backend collection is issued a router `delete` for the document's chunk
ids, the chunks themselves are removed, and so is the document record
(schema note: `scripts/init.sql` declares `documents` with
`ON DELETE CASCADE` only up to the knowledge base; the chunk/vector
cascade lives in the engine, which is not among the shipped sources). -/
def deleteDocument (st : EngineState) (docId : Nat) : EngineState :=
  let doomed := documentChunkIds st docId
  { documents := st.documents.filter (fun d => !(d == docId))
    chunks := st.chunks.filter (fun c => !(c.documentId == docId))
    collections := st.collections.map (fun col =>
      { col with records := delete col.records doomed }) }

/-- How many vector records across the given collections are indexed by
one of the given chunk ids. -/
def matchCount (cols : List Collection) (ids : List Nat) : Nat :=
  (cols.map (fun col =>
    (col.records.filter (fun r => ids.contains r.chunkId)).length)).sum

/-- C2: deleting a document removes all of its chunks and every vector
record associated with those chunks in every backend collection: after
the delete no chunk of the document remains, no collection holds a
vector indexed by one of the document's former chunk ids, and a search
filtered to those former ids finds zero matches. -/
theorem deleteDocument_cascades (st : EngineState) (docId : Nat) :
    (deleteDocument st docId).chunks.filter
      (fun c => c.documentId == docId) = [] ∧
    matchCount (deleteDocument st docId).collections
      (documentChunkIds st docId) = 0 ∧
    ∀ col ∈ (deleteDocument st docId).collections, ∀ qv topK,
      search col.records qv topK
        (fun r => (documentChunkIds st docId).contains r.chunkId) = [] := by
  refine ⟨?_, ?_, ?_⟩
  · simp [deleteDocument, List.filter_filter]
  · unfold matchCount deleteDocument delete
    simp only [List.map_map]
    refine List.sum_eq_zero ?_
    intro n hn
    rcases List.mem_map.mp hn with ⟨col, _, rfl⟩
    simp [List.filter_filter]
  · intro col hcol qv topK
    simp only [deleteDocument] at hcol
    rcases List.mem_map.mp hcol with ⟨c, _, rfl⟩
    unfold search delete
    simp [List.filter_filter, List.insertionSort]

/-- Concrete check of `deleteDocument_cascades` on a state with one
document owning one chunk whose vector sits in one collection. -/
theorem deleteDocument_cascades_witness :
    (deleteDocument ⟨[7], [⟨3, 7, 0⟩], [⟨"c", [⟨3, 0, [1]⟩]⟩]⟩ 7).chunks.filter
      (fun c => c.documentId == (7 : Nat)) = [] ∧
    matchCount (deleteDocument ⟨[7], [⟨3, 7, 0⟩], [⟨"c", [⟨3, 0, [1]⟩]⟩]⟩ 7).collections
      (documentChunkIds ⟨[7], [⟨3, 7, 0⟩], [⟨"c", [⟨3, 0, [1]⟩]⟩]⟩ 7) = 0 ∧
    search (delete [⟨3, 0, [1]⟩] (documentChunkIds ⟨[7], [⟨3, 7, 0⟩],
        [⟨"c", [⟨3, 0, [1]⟩]⟩]⟩ 7)) [1] 5
      (fun r => (documentChunkIds ⟨[7], [⟨3, 7, 0⟩],
        [⟨"c", [⟨3, 0, [1]⟩]⟩]⟩ 7).contains r.chunkId) = [] := by
  refine ⟨(deleteDocument_cascades ⟨[7], [⟨3, 7, 0⟩], [⟨"c", [⟨3, 0, [1]⟩]⟩]⟩ 7).1,
    (deleteDocument_cascades ⟨[7], [⟨3, 7, 0⟩], [⟨"c", [⟨3, 0, [1]⟩]⟩]⟩ 7).2.1,
    ?_⟩
  have h := (deleteDocument_cascades ⟨[7], [⟨3, 7, 0⟩], [⟨"c", [⟨3, 0, [1]⟩]⟩]⟩ 7).2.2
    ⟨"c", delete [⟨3, 0, [1]⟩] (documentChunkIds ⟨[7], [⟨3, 7, 0⟩],
      [⟨"c", [⟨3, 0, [1]⟩]⟩]⟩ 7)⟩ (by simp [deleteDocument]) [1] 5
  simpa using h

/-! ### Document processing status -/

/-- The four processing states of a `Document`. -/
inductive DocStatus
  | pending
  | processing
  | completed
  | failed
  deriving DecidableEq, Repr

/-- The events that can reach the Ingestion Coordinator about one
document. -/
inductive DocEvent
  | startProcessing
  | finishProcessing
  | failProcessing
  | reprocessRequest
  deriving DecidableEq, Repr

/-- Modelled from the spec: the Ingestion Coordinator's per-document
state machine, `pending → processing → completed | failed`, where
`processing` may be re-entered from `failed` only on an explicit
reprocess request (the coordinator is not among the shipped sources;
the admin view only offers its reprocess button when a document's
status is `failed`).  `none` means the event is refused and the status
is unchanged. -/
def stepDoc : DocStatus → DocEvent → Option DocStatus
  | .pending, .startProcessing => some .processing
  | .processing, .finishProcessing => some .completed
  | .processing, .failProcessing => some .failed
  | .failed, .reprocessRequest => some .processing
  | _, _ => none

/-- C3: a document status is always one of the four declared states (by
construction of `DocStatus`), and every status change is one of
`pending → processing`, `processing → completed`,
`processing → failed`, or `failed → processing` — the last only under
an explicit reprocess request.  In particular no transition leaves
`completed`, and nothing but `reprocessRequest` leaves `failed`. -/
theorem stepDoc_transitions (s : DocStatus) (e : DocEvent) (s' : DocStatus)
    (h : stepDoc s e = some s') :
    (s = .pending ∧ s' = .processing) ∨
    (s = .processing ∧ s' = .completed) ∨
    (s = .processing ∧ s' = .failed) ∨
    (s = .failed ∧ e = .reprocessRequest ∧ s' = .processing) := by
  cases s <;> cases e <;> simp_all [stepDoc]

/-- Concrete check of `stepDoc_transitions` on the reprocess
transition. -/
theorem stepDoc_transitions_witness :
    (DocStatus.failed = .pending ∧ DocStatus.processing = .processing) ∨
    (DocStatus.failed = .processing ∧ DocStatus.processing = .completed) ∨
    (DocStatus.failed = .processing ∧ DocStatus.processing = .failed) ∨
    (DocStatus.failed = .failed ∧ DocEvent.reprocessRequest = .reprocessRequest ∧
      DocStatus.processing = .processing) :=
  stepDoc_transitions .failed .reprocessRequest .processing rfl

/-! ### Segmentation -/

/-- A structural element produced by the Content Extractor: the
smallest unextendable span the Segmenter may place a chunk boundary
at (a paragraph or sentence for text, a whole turn for chat
transcripts — turns are atomic, so a boundary or overlap never splits
a turn's text).  `size` is the token-count proxy of `text`. -/
structure SegElem where
  text : String
  size : Nat
  deriving DecidableEq, Repr

/-- Total size of a span of elements. -/
def elemsSize (l : List SegElem) : Nat :=
  (l.map SegElem.size).sum

/-- The trailing `overlap` portion of a chunk: the longest suffix of
whole elements whose total size stays within `overlap` (boundaries are
never re-split). -/
def takeTrailing (overlap : Nat) : List SegElem → List SegElem
  | [] => []
  | e :: rest =>
    if elemsSize (e :: rest) ≤ overlap then e :: rest
    else takeTrailing overlap rest

/-- The segmentation policy `{target_size, overlap, min_size}`, sizes
measured in a token-count proxy. -/
structure SegPolicy where
  targetSize : Nat
  overlap : Nat
  minSize : Nat
  deriving DecidableEq, Repr

/-- Modelled from the spec: the Segmenter's greedy accumulation loop
(the segmenter is not among the shipped sources).  Elements are
accumulated until adding the next one would push the running chunk
past `target_size`; the chunk is then emitted and the next chunk is
seeded with the trailing `overlap` portion of the emitted chunk.  A
running chunk still below `min_size` is not emitted but merged with
the following content, and the final chunk of a document is retained
regardless of size. -/
def segmentGo (p : SegPolicy) : List SegElem → List SegElem → List (List SegElem)
  | acc, [] => if acc.isEmpty then [] else [acc]
  | acc, e :: rest =>
    if !acc.isEmpty && decide (p.minSize ≤ elemsSize acc) &&
        decide (p.targetSize < elemsSize acc + e.size) then
      acc :: segmentGo p (takeTrailing p.overlap acc ++ [e]) rest
    else
      segmentGo p (acc ++ [e]) rest

/-- Modelled from the spec: segmenting one document — the extracted
units contribute their elements in order and the stream is chunked
under the policy. -/
def segmentDocument (p : SegPolicy) (units : List (List SegElem)) :
    List (List SegElem) :=
  segmentGo p [] units.flatten

/-- The overlap relation between consecutive chunks: the trailing
`overlap` portion of the earlier chunk is a prefix of the later
chunk's leading content. -/
def OverlapSeeded (o : Nat) (a b : List SegElem) : Prop :=
  takeTrailing o a <+: b

/-- The trailing overlap portion is a suffix of whole elements of the
chunk it is taken from. -/
theorem takeTrailing_isSuffix (o : Nat) :
    ∀ l : List SegElem, takeTrailing o l <:+ l
  | [] => List.suffix_rfl
  | e :: rest => by
    unfold takeTrailing
    by_cases h : elemsSize (e :: rest) ≤ o
    · rw [if_pos h]
    · rw [if_neg h]
      exact (takeTrailing_isSuffix o rest).trans (List.suffix_cons e rest)

/-- The trailing overlap portion never exceeds the overlap budget. -/
theorem elemsSize_takeTrailing (o : Nat) :
    ∀ l : List SegElem, elemsSize (takeTrailing o l) ≤ o
  | [] => by simp [takeTrailing, elemsSize]
  | e :: rest => by
    unfold takeTrailing
    by_cases h : elemsSize (e :: rest) ≤ o
    · rwa [if_pos h]
    · rw [if_neg h]
      exact elemsSize_takeTrailing o rest

/-- Every chunk list produced by the accumulation loop is chained by
the overlap relation, and its first chunk extends the running
accumulator. -/
theorem segmentGo_chain (p : SegPolicy) :
    ∀ (rest acc : List SegElem),
      List.Chain' (OverlapSeeded p.overlap) (segmentGo p acc rest) ∧
      ∀ c, (segmentGo p acc rest).head? = some c → acc <+: c
  | [], acc => by
    unfold segmentGo
    by_cases h : acc.isEmpty
    · simp [h]
    · simp only [h, Bool.false_eq_true, if_false]
      refine ⟨List.chain'_singleton acc, ?_⟩
      intro c hc
      simp only [List.head?_cons, Option.some.injEq] at hc
      exact hc ▸ List.prefix_rfl
  | e :: rest, acc => by
    unfold segmentGo
    by_cases hemit : (!acc.isEmpty && decide (p.minSize ≤ elemsSize acc) &&
        decide (p.targetSize < elemsSize acc + e.size)) = true
    · rw [if_pos hemit]
      have ih := segmentGo_chain p rest (takeTrailing p.overlap acc ++ [e])
      constructor
      · rw [List.chain'_cons']
        refine ⟨?_, ih.1⟩
        intro y hy
        have h1 := ih.2 y (Option.mem_def.mp hy)
        exact (List.prefix_append _ _).trans h1
      · intro c hc
        simp only [List.head?_cons, Option.some.injEq] at hc
        exact hc ▸ List.prefix_rfl
    · rw [if_neg hemit]
      have ih := segmentGo_chain p rest (acc ++ [e])
      refine ⟨ih.1, ?_⟩
      intro c hc
      exact (List.prefix_append acc [e]).trans (ih.2 c hc)

/-- C8: consecutive chunks overlap — for every pair `c[i], c[i+1]` of
consecutive chunks of a segmented document, the trailing `overlap`
portion of `c[i]` is a prefix of `c[i+1]`'s leading content, and that
trailing portion is a suffix of whole elements of `c[i]` of total size
at most `overlap` (for chat transcripts the elements are whole turns,
so the overlap never splits a single turn's text). -/
theorem segment_overlap_invariant (p : SegPolicy)
    (units : List (List SegElem)) :
    List.Chain' (OverlapSeeded p.overlap) (segmentDocument p units) ∧
    ∀ chunk : List SegElem, takeTrailing p.overlap chunk <:+ chunk ∧
      elemsSize (takeTrailing p.overlap chunk) ≤ p.overlap := by
  refine ⟨(segmentGo_chain p units.flatten []).1, ?_⟩
  intro chunk
  exact ⟨takeTrailing_isSuffix p.overlap chunk,
    elemsSize_takeTrailing p.overlap chunk⟩

/-- C7: segmentation is a deterministic function of the extracted
units and the policy — two runs on equal inputs produce identical
chunk boundaries. -/
theorem segment_deterministic (p p' : SegPolicy)
    (units units' : List (List SegElem))
    (hp : p = p') (hu : units = units') :
    segmentDocument p units = segmentDocument p' units' := by
  rw [hp, hu]

/-- Concrete check of `segment_deterministic` on a three-paragraph
document with `target_size = 2, overlap = 1, min_size = 0` (sizes in
paragraphs). -/
theorem segment_deterministic_witness :
    segmentDocument ⟨2, 1, 0⟩ [[⟨"p1", 1⟩, ⟨"p2", 1⟩, ⟨"p3", 1⟩]] =
      segmentDocument ⟨2, 1, 0⟩ [[⟨"p1", 1⟩, ⟨"p2", 1⟩, ⟨"p3", 1⟩]] :=
  segment_deterministic ⟨2, 1, 0⟩ ⟨2, 1, 0⟩
    [[⟨"p1", 1⟩, ⟨"p2", 1⟩, ⟨"p3", 1⟩]] [[⟨"p1", 1⟩, ⟨"p2", 1⟩, ⟨"p3", 1⟩]]
    rfl rfl

/-- Spec scenario: a three-paragraph document segmented with
`target_size = 2` paragraphs and `overlap = 1` paragraph yields two
chunks, the second beginning with paragraph 2 (the overlap from chunk
one). -/
theorem segment_three_paragraph_scenario :
    segmentDocument ⟨2, 1, 0⟩ [[⟨"p1", 1⟩, ⟨"p2", 1⟩, ⟨"p3", 1⟩]] =
      [[⟨"p1", 1⟩, ⟨"p2", 1⟩], [⟨"p2", 1⟩, ⟨"p3", 1⟩]] := by
  decide

/-! ### Front-end request client (`frontend/src/utils/request.ts`) -/

/-- The JSON body of an API response, as far as the response
interceptor inspects it: the business flag `success` and the optional
`message` and `error` strings (absent fields are `none`). -/
structure ApiBody where
  success : Option Bool
  message : Option String
  errorMsg : Option String
  deriving DecidableEq, Repr

/-- The payload the interceptor sees: a binary blob (what axios hands
over for `responseType: 'blob'` requests) or a JSON body. -/
inductive ApiData
  | blob
  | json (body : ApiBody)
  deriving DecidableEq, Repr

/-- The settled state of the request promise after the interceptors in
`request.ts` ran. -/
inductive ApiOutcome
  | resolvedRaw
  | resolvedData (body : ApiBody)
  | rejectedBusiness (msg : String)
  | rejectedHttp (status : Nat) (data : ApiData) (displayMsg : String)
  deriving DecidableEq, Repr

/-- JavaScript `a || dflt` on an optional string: absent and empty
strings are falsy. -/
def jsOr (s : Option String) (dflt : String) : String :=
  match s with
  | some v => if v = "" then dflt else v
  | none => dflt

/-- `response.data?.message` as the error interceptor reads it. -/
def dataMessage : ApiData → Option String
  | .blob => none
  | .json b => b.message

/-- The display message the error interceptor picks per HTTP status
(`request.ts`, lines 94–126). -/
def httpErrorMessage (status : Nat) (data : ApiData) : String :=
  match status with
  | 400 => jsOr (dataMessage data) "请求参数错误"
  | 401 => "身份认证失败，请重新登录"
  | 403 => "权限不足，无法访问该资源"
  | 404 => "请求的资源不存在"
  | 429 => "请求过于频繁，请稍后再试"
  | 500 => "服务器内部错误"
  | 502 => "网关错误"
  | 503 => "服务暂时不可用"
  | s => jsOr (dataMessage data) ("请求失败 (" ++ toString s ++ ")")

/-- Embedding of the axios response handling in `request.ts`: a 2xx
response reaches the fulfilled interceptor — blob responses are
returned raw, and a JSON body with `success === false` yields a
rejected promise carrying `data.message || data.error || '请求失败'`;
every non-2xx response reaches the error interceptor, which always
rejects, the rejected axios error still carrying the server's
response (status, data) alongside the display message. -/
def handleResponse (status : Nat) (data : ApiData) : ApiOutcome :=
  if 200 ≤ status ∧ status < 300 then
    match data with
    | .blob => .resolvedRaw
    | .json b =>
      if b.success = some false then
        .rejectedBusiness (jsOr b.message (jsOr b.errorMsg "请求失败"))
      else
        .resolvedData b
  else
    .rejectedHttp status data (httpErrorMessage status data)

/-- Whether the request promise was rejected. -/
def isRejected : ApiOutcome → Bool
  | .rejectedBusiness _ => true
  | .rejectedHttp _ _ _ => true
  | _ => false

/-- C9: the shared request client never converts a business failure
into an empty success — whenever the response body carries
`success === false`, or the HTTP status lies outside 2xx, the promise
rejects and never resolves; a 2xx business failure rejects with the
server's message when a non-empty one is present, and a non-2xx
response rejects with the error object still carrying the server's
response. -/
theorem request_rejects_failures (status : Nat) (data : ApiData) :
    ((∃ b, data = .json b ∧ b.success = some false) ∨
        ¬(200 ≤ status ∧ status < 300) →
      isRejected (handleResponse status data) = true) ∧
    (∀ b m, data = .json b → b.success = some false → b.message = some m →
      m ≠ "" → (200 ≤ status ∧ status < 300) →
      handleResponse status data = .rejectedBusiness m) ∧
    (¬(200 ≤ status ∧ status < 300) →
      handleResponse status data =
        .rejectedHttp status data (httpErrorMessage status data)) := by
  refine ⟨?_, ?_, ?_⟩
  · intro h
    by_cases h2 : 200 ≤ status ∧ status < 300
    · rcases h with ⟨b, rfl, hb⟩ | hno
      · simp [handleResponse, h2, hb, isRejected]
      · exact absurd h2 hno
    · simp [handleResponse, h2, isRejected]
  · intro b m hdata hsucc hmsg hm h2
    subst hdata
    simp [handleResponse, h2, hsucc, jsOr, hmsg, hm]
  · intro h2
    simp [handleResponse, h2]

/-- Concrete check of `request_rejects_failures`: a 200 response whose
body says `success: false, message: "boom"` rejects with "boom", and a
500 blob response rejects carrying the response. -/
theorem request_rejects_failures_witness :
    isRejected (handleResponse 200 (.json ⟨some false, some "boom", none⟩)) =
      true ∧
    handleResponse 200 (.json ⟨some false, some "boom", none⟩) =
      .rejectedBusiness "boom" ∧
    handleResponse 500 .blob =
      .rejectedHttp 500 .blob (httpErrorMessage 500 .blob) :=
  ⟨(request_rejects_failures 200 (.json ⟨some false, some "boom", none⟩)).1
      (Or.inl ⟨⟨some false, some "boom", none⟩, rfl, rfl⟩),
   (request_rejects_failures 200 (.json ⟨some false, some "boom", none⟩)).2.1
      ⟨some false, some "boom", none⟩ "boom" rfl rfl rfl (by decide)
      (by decide),
   (request_rejects_failures 500 .blob).2.2 (by decide)⟩

/-! ### Knowledge-base document upload (`handleFileChange`) -/

/-- The allowed upload extensions in the knowledge-base
document-upload dialog. -/
def allowedTypes : List String := ["pdf", "docx", "txt", "md"]

/-- An upload candidate as the handler sees it: file name and size in
bytes. -/
structure UploadFile where
  name : String
  size : Nat
  deriving DecidableEq, Repr

/-- JavaScript `String.prototype.split(sep)` restricted to a one-char
separator, over the character list of the string. -/
def splitOnChar (sep : Char) : List Char → List (List Char)
  | [] => [[]]
  | c :: rest =>
    match splitOnChar sep rest with
    | [] => [[c]]
    | g :: gs => if c = sep then [] :: g :: gs else (c :: g) :: gs

/-- `file.name.split('.').pop()?.toLowerCase()`: the substring after
the last dot (the whole name when it has no dot), lowercased. -/
def fileExt (name : String) : String :=
  ⟨((splitOnChar '.' name.data).getLast?.getD []).map Char.toLower⟩

/-- The handler's outcome: rejected with an error toast (the handler
returns `false`), or accepted. -/
inductive FileCheck
  | rejectedType
  | rejectedSize
  | accepted
  deriving DecidableEq, Repr

/-- Embedding of `handleFileChange` in the knowledge-base view: a file
whose extension is not allowed, or whose size exceeds
`50 * 1024 * 1024` bytes, is rejected with an error message and the
upload file list is left unchanged; otherwise the component's new file
list (which includes the file) is stored. -/
def handleFileChange (file : UploadFile) (files fileList : List UploadFile) :
    List UploadFile × FileCheck :=
  if !(allowedTypes.contains (fileExt file.name)) then
    (fileList, .rejectedType)
  else if 50 * 1024 * 1024 < file.size then
    (fileList, .rejectedSize)
  else
    (files, .accepted)

/-- C10: the upload file list is updated (to the list including the
new file) exactly when the file name's extension, lowercased, is one
of pdf, docx, txt, md and the size is at most `50 * 1024 * 1024`
bytes; a file failing either check is reported as an error, the
handler returns `false`, and the file list is unchanged. -/
theorem handleFileChange_filters (file : UploadFile)
    (files fileList : List UploadFile) :
    (allowedTypes.contains (fileExt file.name) = true →
      file.size ≤ 50 * 1024 * 1024 →
      handleFileChange file files fileList = (files, .accepted)) ∧
    (allowedTypes.contains (fileExt file.name) = false ∨
        50 * 1024 * 1024 < file.size →
      (handleFileChange file files fileList).1 = fileList ∧
      (handleFileChange file files fileList).2 ≠ .accepted) := by
  constructor
  · intro hext hsize
    have hmem : fileExt file.name ∈ allowedTypes := by simpa using hext
    simp [handleFileChange, hmem, Nat.not_lt.mpr hsize]
  · intro h
    rcases h with h | h
    · have hmem : fileExt file.name ∉ allowedTypes := by simpa using h
      simp [handleFileChange, hmem]
    · by_cases hext : fileExt file.name ∈ allowedTypes
      · simp [handleFileChange, hext, h]
      · simp [handleFileChange, hext]

/-- Concrete check of `handleFileChange_filters`: `Report.PDF` of
1000 bytes is accepted into the file list; `a.exe` is rejected and
the (empty) file list stays unchanged. -/
theorem handleFileChange_filters_witness :
    handleFileChange ⟨"Report.PDF", 1000⟩ [⟨"Report.PDF", 1000⟩] [] =
      ([⟨"Report.PDF", 1000⟩], .accepted) ∧
    (handleFileChange ⟨"a.exe", 1⟩ [⟨"a.exe", 1⟩] []).1 = [] ∧
    (handleFileChange ⟨"a.exe", 1⟩ [⟨"a.exe", 1⟩] []).2 ≠ .accepted :=
  ⟨(handleFileChange_filters ⟨"Report.PDF", 1000⟩ [⟨"Report.PDF", 1000⟩] []).1
      (by decide) (by decide),
   (handleFileChange_filters ⟨"a.exe", 1⟩ [⟨"a.exe", 1⟩] []).2
      (Or.inl (by decide))⟩

end ChatAgent
